import Mathlib

/-!
Verification of the web asset server (web_server/db.py, auth.py, storage.py,
app.py) against its specification. The SQLite tables are modelled as lists of
row structures; each mutating helper of db.py becomes a pure state transformer
that also receives the timestamp (the value utcnow() would produce) as an
explicit argument. JSON payloads of metadata columns are kept as opaque
strings holding the serialized form; change-log payloads are modelled by a
small sum type mirroring the dictionaries the code serializes.
-/

/-- Row of the assets table. -/
structure AssetRow where
  id : String
  name : String
  family : String
  description : String
  tags : String
  status : String
  created_at : String
  updated_at : String
deriving DecidableEq, Repr

/-- Row of the versions table (the AUTOINCREMENT id column is irrelevant to
the claims and omitted). -/
structure VersionRow where
  asset_id : String
  version : Int
  metadata_json : String
  thumbnail_path : String
  archived : Bool
  created_at : String
  updated_at : String
deriving DecidableEq, Repr

/-- Row of the files table. -/
structure FileRow where
  asset_id : String
  version : Int
  filename : String
  rel_path : String
  format : String
  size_bytes : Int
deriving DecidableEq, Repr

/-- Row of the comments table. -/
structure CommentRow where
  asset_id : String
  author : String
  body : String
  created_at : String
deriving DecidableEq, Repr

/-- The JSON dictionaries that db.py serializes into changes.payload_json,
one constructor per shape that appears in the code. -/
inductive Payload where
  | nameFamily (name family : String)
  | version (version : Int)
  | fileAdded (version : Int) (filename : String)
  | fields (fs : List (String × String))
  | empty
  | author (author : String)
deriving DecidableEq, Repr

/-- Row of the changes table. -/
structure Change where
  change_type : String
  asset_id : String
  payload : Payload
  created_at : String
deriving DecidableEq, Repr

/-- The whole SQLite database state: the five tables, rows in insertion
order. -/
structure DB where
  assets : List AssetRow
  versions : List VersionRow
  files : List FileRow
  comments : List CommentRow
  changes : List Change
deriving DecidableEq, Repr

/-- The state produced by init_db on a fresh file: all tables empty. -/
def emptyDB : DB := ⟨[], [], [], [], []⟩

/-- db.ensure_asset: insert the asset row if absent (status "published"),
else update name, family and updated_at; always append an asset_upsert
change record. -/
def ensure_asset (st : DB) (asset_id name family : String)
    (description : String) (tags : String) (now : String) : DB :=
  let assets1 :=
    if st.assets.any (fun r => decide (r.id = asset_id)) then
      st.assets.map (fun r =>
        if r.id = asset_id then
          { r with name := name, family := family, updated_at := now }
        else r)
    else
      st.assets ++
        [⟨asset_id, name, family, description, tags, "published", now, now⟩]
  { st with
    assets := assets1
    changes := st.changes ++
      [⟨"asset_upsert", asset_id, Payload.nameFamily name family, now⟩] }

/-- The versions-row key predicate used by the WHERE clauses of
upsert_version. -/
def keyP (asset_id : String) (version : Int) : VersionRow → Bool :=
  fun r => decide (r.asset_id = asset_id ∧ r.version = version)

/-- Effect of the UPDATE statement of db.upsert_version on one row. -/
def updVersion (asset_id : String) (version : Int)
    (metadata thumbnail_path now : String) (r : VersionRow) : VersionRow :=
  if r.asset_id = asset_id ∧ r.version = version then
    { r with metadata_json := metadata, thumbnail_path := thumbnail_path,
             updated_at := now }
  else r

/-- db.upsert_version: INSERT OR IGNORE a fresh row for (asset_id, version),
then UPDATE metadata_json, thumbnail_path and updated_at of every row with
that key; append a version_upsert change record. The metadata argument is
the serialized json.dumps output. -/
def upsert_version (st : DB) (asset_id : String) (version : Int)
    (metadata : String) (thumbnail_path : String) (now : String) : DB :=
  let vs1 :=
    if st.versions.any (keyP asset_id version) then
      st.versions
    else
      st.versions ++
        [⟨asset_id, version, metadata, thumbnail_path, false, now, now⟩]
  { st with
    versions := vs1.map (updVersion asset_id version metadata thumbnail_path now)
    changes := st.changes ++
      [⟨"version_upsert", asset_id, Payload.version version, now⟩] }

/-- db.add_file: always insert a new files row; append a file_added change
record. -/
def add_file (st : DB) (asset_id : String) (version : Int)
    (filename rel_path fmt : String) (size_bytes : Int) (now : String) : DB :=
  { st with
    files := st.files ++ [⟨asset_id, version, filename, rel_path, fmt, size_bytes⟩]
    changes := st.changes ++
      [⟨"file_added", asset_id, Payload.fileAdded version filename, now⟩] }

/-- The column whitelist of db.update_asset. -/
def allowedFields : List String := ["name", "description", "tags", "status"]

/-- The filtered field list db.update_asset builds: supplied pairs whose key
is in the whitelist, in supplied order. -/
def filteredFields (fields : List (String × String)) : List (String × String) :=
  fields.filter (fun kv => decide (kv.1 ∈ allowedFields))

/-- Effect of one SET clause of the UPDATE statement on one asset row. -/
def applyField (a : AssetRow) (kv : String × String) : AssetRow :=
  if kv.1 = "name" then { a with name := kv.2 }
  else if kv.1 = "description" then { a with description := kv.2 }
  else if kv.1 = "tags" then { a with tags := kv.2 }
  else if kv.1 = "status" then { a with status := kv.2 }
  else a

/-- Effect of the whole UPDATE statement of db.update_asset on one row:
rows with a matching id get the filtered fields applied and updated_at set,
other rows are untouched. -/
def updateRow (asset_id : String) (fs : List (String × String)) (now : String)
    (r : AssetRow) : AssetRow :=
  if r.id = asset_id then { fs.foldl applyField r with updated_at := now }
  else r

/-- db.update_asset: whitelist-only partial update. If no supplied key is
whitelisted the function returns before contacting the database; otherwise
it runs the UPDATE and appends one asset_update change record whose payload
is the filtered dictionary. -/
def update_asset (st : DB) (asset_id : String)
    (fields : List (String × String)) (now : String) : DB :=
  let fs := filteredFields fields
  if fs = [] then st
  else
    { st with
      assets := st.assets.map (updateRow asset_id fs now)
      changes := st.changes ++
        [⟨"asset_update", asset_id, Payload.fields fs, now⟩] }

/-- db.archive_version: set archived and updated_at on every row with the
key, append a version_archived change record; no existence check. -/
def archive_version (st : DB) (asset_id : String) (version : Int)
    (now : String) : DB :=
  { st with
    versions := st.versions.map (fun r =>
      if r.asset_id = asset_id ∧ r.version = version then
        { r with archived := true, updated_at := now }
      else r)
    changes := st.changes ++
      [⟨"version_archived", asset_id, Payload.version version, now⟩] }

/-- db.delete_version: hard delete the files rows and versions rows of the
key, append a version_deleted change record; no existence check. -/
def delete_version (st : DB) (asset_id : String) (version : Int)
    (now : String) : DB :=
  { st with
    files := st.files.filter (fun f =>
      !(decide (f.asset_id = asset_id ∧ f.version = version)))
    versions := st.versions.filter (fun r =>
      !(decide (r.asset_id = asset_id ∧ r.version = version)))
    changes := st.changes ++
      [⟨"version_deleted", asset_id, Payload.version version, now⟩] }

/-- db.delete_asset: hard delete files, versions, comments and the asset
row, append an asset_deleted change record; no existence check. -/
def delete_asset (st : DB) (asset_id : String) (now : String) : DB :=
  { st with
    files := st.files.filter (fun f => !(decide (f.asset_id = asset_id)))
    versions := st.versions.filter (fun r => !(decide (r.asset_id = asset_id)))
    comments := st.comments.filter (fun c => !(decide (c.asset_id = asset_id)))
    assets := st.assets.filter (fun r => !(decide (r.id = asset_id)))
    changes := st.changes ++
      [⟨"asset_deleted", asset_id, Payload.empty, now⟩] }

/-- db.add_comment: insert the comment row and append a comment change
record; no existence check. -/
def add_comment (st : DB) (asset_id author body : String) (now : String) : DB :=
  { st with
    comments := st.comments ++ [⟨asset_id, author, body, now⟩]
    changes := st.changes ++
      [⟨"comment", asset_id, Payload.author author, now⟩] }

/-- Comparison used by ORDER BY created_at ASC. created_at holds ASCII
ISO-8601 text, for which byte-wise SQLite TEXT comparison agrees with the
codepoint-lexicographic order on String. -/
def changeLe (a b : Change) : Prop := a.created_at ≤ b.created_at

instance : DecidableRel changeLe := fun a b =>
  inferInstanceAs (Decidable (a.created_at ≤ b.created_at))

instance : IsTotal Change changeLe :=
  ⟨fun a b => le_total a.created_at b.created_at⟩

instance : IsTrans Change changeLe :=
  ⟨fun _ _ _ hab hbc => le_trans hab hbc⟩

/-- ORDER BY created_at ASC on the changes table, as a stable sort. -/
def sortChanges (l : List Change) : List Change := List.insertionSort changeLe l

/-- db.list_changes: WHERE created_at > since (only when since is truthy in
the Python sense, that is present and nonempty), ORDER BY created_at ASC,
LIMIT limit. -/
def list_changes (st : DB) (since : Option String) (limit : Nat) : List Change :=
  match since with
  | some s =>
      if s = "" then (sortChanges st.changes).take limit
      else
        (sortChanges (st.changes.filter (fun c => decide (s < c.created_at)))).take limit
  | none => (sortChanges st.changes).take limit

/-- db.list_changes with the default limit of 100. -/
def list_changes_default (st : DB) (since : Option String) : List Change :=
  list_changes st since 100

/-- Comparison used by ORDER BY version DESC in get_asset. -/
def versionGe (a b : VersionRow) : Prop := b.version ≤ a.version

instance : DecidableRel versionGe := fun a b =>
  inferInstanceAs (Decidable (b.version ≤ a.version))

instance : IsTotal VersionRow versionGe :=
  ⟨fun a b => le_total b.version a.version⟩

instance : IsTrans VersionRow versionGe :=
  ⟨fun _ _ _ hab hbc => le_trans hbc hab⟩

/-- db.get_asset: the asset row if it exists, with its versions ordered by
version descending and its files in table order. -/
def get_asset (st : DB) (asset_id : String) :
    Option (AssetRow × List VersionRow × List FileRow) :=
  match st.assets.find? (fun r => decide (r.id = asset_id)) with
  | none => none
  | some a =>
      some (a,
        List.insertionSort versionGe
          (st.versions.filter (fun r => decide (r.asset_id = asset_id))),
        st.files.filter (fun f => decide (f.asset_id = asset_id)))

/-- One call to a mutating helper of db.py, with its arguments. -/
inductive Op where
  | ensure_asset (asset_id name family description tags : String)
  | upsert_version (asset_id : String) (version : Int) (metadata thumbnail : String)
  | add_file (asset_id : String) (version : Int) (filename rel_path fmt : String)
      (size_bytes : Int)
  | update_asset (asset_id : String) (fields : List (String × String))
  | archive_version (asset_id : String) (version : Int)
  | delete_version (asset_id : String) (version : Int)
  | delete_asset (asset_id : String)
  | add_comment (asset_id author body : String)
deriving DecidableEq, Repr

/-- Execute one mutating call at the given timestamp. -/
def applyOp (st : DB) (op : Op) (now : String) : DB :=
  match op with
  | .ensure_asset a n f d t => ensure_asset st a n f d t now
  | .upsert_version a v m th => upsert_version st a v m th now
  | .add_file a v fn rp fmt sz => add_file st a v fn rp fmt sz now
  | .update_asset a fs => update_asset st a fs now
  | .archive_version a v => archive_version st a v now
  | .delete_version a v => delete_version st a v now
  | .delete_asset a => delete_asset st a now
  | .add_comment a au b => add_comment st a au b now

/-- Execute a sequence of mutating calls, each paired with its timestamp. -/
def runOps (st : DB) (ops : List (Op × String)) : DB :=
  ops.foldl (fun s p => applyOp s p.1 p.2) st

/-- The change records one call appends (empty only for an update_asset
call whose whole field dictionary is filtered out). -/
def emitted (op : Op) (now : String) : List Change :=
  match op with
  | .ensure_asset a n f _ _ => [⟨"asset_upsert", a, Payload.nameFamily n f, now⟩]
  | .upsert_version a v _ _ => [⟨"version_upsert", a, Payload.version v, now⟩]
  | .add_file a v fn _ _ _ => [⟨"file_added", a, Payload.fileAdded v fn, now⟩]
  | .update_asset a fs =>
      if filteredFields fs = [] then []
      else [⟨"asset_update", a, Payload.fields (filteredFields fs), now⟩]
  | .archive_version a v => [⟨"version_archived", a, Payload.version v, now⟩]
  | .delete_version a v => [⟨"version_deleted", a, Payload.version v, now⟩]
  | .delete_asset a => [⟨"asset_deleted", a, Payload.empty, now⟩]
  | .add_comment a au _ => [⟨"comment", a, Payload.author au, now⟩]

/-- The change_type a call logs, none for a fully filtered update_asset. -/
def loggedType (op : Op) : Option String :=
  match op with
  | .ensure_asset .. => some "asset_upsert"
  | .upsert_version .. => some "version_upsert"
  | .add_file .. => some "file_added"
  | .update_asset _ fs =>
      if filteredFields fs = [] then none else some "asset_update"
  | .archive_version .. => some "version_archived"
  | .delete_version .. => some "version_deleted"
  | .delete_asset .. => some "asset_deleted"
  | .add_comment .. => some "comment"

/-- Whether a call is an update_asset invocation. -/
def isUpdateAsset : Op → Bool
  | .update_asset .. => true
  | _ => false

/-- The versions rows carrying a given (asset_id, version) key. -/
def versionsFor (st : DB) (asset_id : String) (version : Int) : List VersionRow :=
  st.versions.filter (keyP asset_id version)

/-! ## Auth layer (web_server/auth.py) -/

/-- role_rank.get(role, 0): the rank lookup used for the resolved role. -/
def roleRank (role : String) : Nat :=
  if role = "viewer" then 1
  else if role = "editor" then 2
  else if role = "admin" then 3
  else 0

/-- role_rank.get(min_role, 1): the rank lookup used for the endpoint
minimum, whose default is 1. -/
def minRoleRank (min_role : String) : Nat :=
  if min_role = "viewer" then 1
  else if min_role = "editor" then 2
  else if min_role = "admin" then 3
  else 1

/-- Outcome of the require_role wrapper before the handler runs. -/
inductive AuthDecision where
  | unauthorized
  | forbidden
  | allowed (role : String)
deriving DecidableEq, Repr

/-- HTTP status of a rejecting auth decision. -/
def authStatus : AuthDecision → Option Nat
  | .unauthorized => some 401
  | .forbidden => some 403
  | .allowed _ => none

/-- auth.require_role: look the presented X-API-Key value up in the key
table; a missing entry, or an entry whose value is the empty string (falsy
in Python), gives 401; a rank below the endpoint minimum gives 403;
otherwise the request is allowed with the resolved role. An absent header
is the empty key string. -/
def require_role (min_role : String) (keys : List (String × String))
    (api_key : String) : AuthDecision :=
  match keys.lookup api_key with
  | none => .unauthorized
  | some role =>
      if role = "" then .unauthorized
      else if roleRank role < minRoleRank min_role then .forbidden
      else .allowed role

/-! ## Storage layer path resolution (web_server/storage.py) -/

/-- Character-level worker for splitPath. -/
def splitPathAux : List Char → List Char → List String
  | [], acc => [String.mk acc.reverse]
  | c :: rest, acc =>
      if c = '/' then String.mk acc.reverse :: splitPathAux rest []
      else splitPathAux rest (c :: acc)

/-- Split a POSIX path string on the slash separator. -/
def splitPath (s : String) : List String := splitPathAux s.data []

/-- Whether a POSIX path string is absolute. -/
def isAbsPath (s : String) : Bool :=
  match s.data with
  | c :: _ => c = '/'
  | [] => false

/-- One step of os.path.normpath over an absolute path: empty and dot
components vanish; a dotdot component pops the previous real component and
is dropped at the root. -/
def normStep (acc : List String) (c : String) : List String :=
  if c = "" ∨ c = "." then acc
  else if c = ".." then acc.dropLast
  else acc ++ [c]

/-- os.path.normpath applied to an absolute path given by its component
list (the leading slash is implicit). -/
def normAbs (cs : List String) : List String := cs.foldl normStep []

/-- storage.absolute_from_rel: os.path.normpath(os.path.join(ROOT, rel)).
root is the component list of the absolute storage root. os.path.join
discards root when rel is itself absolute. The result is the component
list of the resolved absolute path. -/
def absolute_from_rel (root : List String) (rel : String) : List String :=
  if isAbsPath rel then normAbs (splitPath rel)
  else normAbs (root ++ splitPath rel)

/-! ## API layer (web_server/app.py) -/

/-- JSON body of POST /api/assets; absent keys are none. tags may be a JSON
list of strings or a plain string. metadata is kept as its serialized
form. -/
structure AssetsBody where
  asset_id : Option String
  name : Option String
  family : Option String
  description : Option String
  tags : Option (List String ⊕ String)
  metadata : Option String
  version : Option Int
deriving Repr

/-- payload.get(k) or default, with the Python falsy treatment of the empty
string. -/
def orDefault (v : Option String) (d : String) : String :=
  match v with
  | some s => if s = "" then d else s
  | none => d

/-- The POST /api/assets handler body (after the editor auth gate): read
and default the fields, reject with 400 before any database call when
asset_id is absent or empty, otherwise run ensure_asset then
upsert_version and reply 200. -/
def upsert_asset_route (st : DB) (body : AssetsBody) (now : String) : Nat × DB :=
  let asset_id := orDefault body.asset_id ""
  let name := orDefault body.name asset_id
  let family := (orDefault body.family "unknown").toLower
  let description := orDefault body.description ""
  let tags :=
    match body.tags with
    | some (Sum.inl l) => String.intercalate "," l
    | some (Sum.inr s) => s
    | none => ""
  let metadata := orDefault body.metadata "{}"
  if asset_id = "" then (400, st)
  else
    let version := match body.version with
      | some v => if v = 0 then 1 else v
      | none => 1
    let st1 := ensure_asset st asset_id name family description tags now
    let st2 := upsert_version st1 asset_id version metadata "" now
    (200, st2)

/-- Outcome of GET /api/assets/{id}/download. -/
inductive DownloadResult where
  | notFound
  | serve (abs_path : List String) (filename : String)
deriving DecidableEq, Repr

/-- The download_file handler: look the asset up, walk its file rows in
table order and stream the first one matching the requested version and
format through absolute_from_rel; there is no 400 branch and no
confinement check on the resolved path. -/
def download_file_route (st : DB) (root : List String) (asset_id : String)
    (version : Int) (fmt : String) : DownloadResult :=
  match get_asset st asset_id with
  | none => .notFound
  | some rec_ =>
      match rec_.2.2.find? (fun f =>
          decide (f.version = version) && (fmt == "" || f.format == fmt)) with
      | some f => .serve (absolute_from_rel root f.rel_path) f.filename
      | none => .notFound

/-! ## Sample states used by the witness theorems -/

/-- A stored asset row used by concrete instantiations. -/
def sampleAsset : AssetRow :=
  ⟨"a1", "n", "model", "d", "t", "published", "t1", "t1"⟩

/-- A one-asset database used by concrete instantiations. -/
def sampleDB : DB := { emptyDB with assets := [sampleAsset] }

/-! ## Helper lemmas -/

theorem applyField_frame (a : AssetRow) (kv : String × String) :
    (applyField a kv).id = a.id ∧ (applyField a kv).family = a.family ∧
    (applyField a kv).created_at = a.created_at := by
  unfold applyField
  repeat' split
  all_goals exact ⟨rfl, rfl, rfl⟩

theorem foldl_applyField_frame (fs : List (String × String)) (a : AssetRow) :
    (fs.foldl applyField a).id = a.id ∧
    (fs.foldl applyField a).family = a.family ∧
    (fs.foldl applyField a).created_at = a.created_at := by
  induction fs generalizing a with
  | nil => exact ⟨rfl, rfl, rfl⟩
  | cons kv rest ih =>
      obtain ⟨h1, h2, h3⟩ := ih (applyField a kv)
      obtain ⟨g1, g2, g3⟩ := applyField_frame a kv
      exact ⟨h1.trans g1, h2.trans g2, h3.trans g3⟩

theorem updateRow_frame (aid : String) (fs : List (String × String))
    (now : String) (r : AssetRow) :
    (updateRow aid fs now r).id = r.id ∧
    (updateRow aid fs now r).family = r.family ∧
    (updateRow aid fs now r).created_at = r.created_at ∧
    (r.id = aid → (updateRow aid fs now r).updated_at = now) ∧
    (r.id ≠ aid → updateRow aid fs now r = r) := by
  by_cases h : r.id = aid
  · obtain ⟨h1, h2, h3⟩ := foldl_applyField_frame fs r
    have e : updateRow aid fs now r
        = { fs.foldl applyField r with updated_at := now } := by
      unfold updateRow; rw [if_pos h]
    rw [e]
    exact ⟨h1, h2, h3, fun _ => rfl, fun hn => absurd h hn⟩
  · have e : updateRow aid fs now r = r := by
      unfold updateRow; rw [if_neg h]
    rw [e]
    exact ⟨rfl, rfl, rfl, fun hc => absurd hc h, fun _ => rfl⟩

theorem filteredFields_idem (fields : List (String × String)) :
    filteredFields (filteredFields fields) = filteredFields fields := by
  unfold filteredFields
  rw [List.filter_filter]
  congr 1
  funext kv
  exact Bool.and_self _

/-! ## Claim theorems -/

/-- C8: archive_version, delete_version, delete_asset and add_comment check
nothing before writing: for every state and every asset_id and version,
also ones no table mentions, the call appends its change record. -/
theorem C8_no_existence_checks (st : DB) (a au b : String) (v : Int)
    (now : String) :
    (archive_version st a v now).changes
        = st.changes ++ [⟨"version_archived", a, Payload.version v, now⟩] ∧
    (delete_version st a v now).changes
        = st.changes ++ [⟨"version_deleted", a, Payload.version v, now⟩] ∧
    (delete_asset st a now).changes
        = st.changes ++ [⟨"asset_deleted", a, Payload.empty, now⟩] ∧
    (add_comment st a au b now).changes
        = st.changes ++ [⟨"comment", a, Payload.author au, now⟩] :=
  ⟨rfl, rfl, rfl, rfl⟩

/-- C9: when the asset row already exists, ensure_asset only rewrites name,
family and updated_at; the description and tags arguments play no role, and
description, tags, status and created_at of the stored row survive. -/
theorem C9_ensure_asset_existing (st : DB) (aid n fam d t d2 t2 now : String)
    (h : st.assets.any (fun r => decide (r.id = aid)) = true) :
    ensure_asset st aid n fam d t now = ensure_asset st aid n fam d2 t2 now ∧
    (ensure_asset st aid n fam d t now).assets
      = st.assets.map (fun r =>
          if r.id = aid then
            { r with name := n, family := fam, updated_at := now }
          else r) ∧
    (∀ r : AssetRow,
      (if r.id = aid then
          { r with name := n, family := fam, updated_at := now }
        else r).description = r.description ∧
      (if r.id = aid then
          { r with name := n, family := fam, updated_at := now }
        else r).tags = r.tags ∧
      (if r.id = aid then
          { r with name := n, family := fam, updated_at := now }
        else r).status = r.status ∧
      (if r.id = aid then
          { r with name := n, family := fam, updated_at := now }
        else r).created_at = r.created_at) := by
  refine ⟨?_, ?_, ?_⟩
  · simp [ensure_asset, h]
  · simp [ensure_asset, h]
  · intro r
    by_cases hr : r.id = aid <;> simp [hr]

theorem C9_witness :
    (sampleDB.assets.any (fun r => decide (r.id = "a1")) = true) ∧
    ensure_asset sampleDB "a1" "n2" "rig" "dX" "tX" "t2"
      = ensure_asset sampleDB "a1" "n2" "rig" "dY" "tY" "t2" :=
  ⟨by decide,
    (C9_ensure_asset_existing sampleDB "a1" "n2" "rig" "dX" "tX" "dY" "tY" "t2"
      (by decide)).1⟩

/-- C10: a POST /api/assets body with an absent or empty asset_id yields
HTTP 400 and the database state is returned untouched, the check running
before any persistence call. -/
theorem C10_assets_validation (st : DB) (body : AssetsBody) (now : String)
    (h : body.asset_id = none ∨ body.asset_id = some "") :
    upsert_asset_route st body now = (400, st) := by
  rcases h with h | h <;> simp [upsert_asset_route, orDefault, h]

/-- A request body with every key absent. -/
def emptyBody : AssetsBody := ⟨none, none, none, none, none, none, none⟩

theorem C10_witness :
    (emptyBody.asset_id = none ∨ emptyBody.asset_id = some "") ∧
    upsert_asset_route emptyDB emptyBody "t0" = (400, emptyDB) :=
  ⟨Or.inl rfl, C10_assets_validation emptyDB emptyBody "t0" (Or.inl rfl)⟩

/-- C6: update_asset is insensitive to keys outside the whitelist, is a
complete no-op when the filtered field set is empty, and otherwise runs the
UPDATE (touching updated_at of the matched row, leaving id, family and
created_at alone and other rows untouched) and appends one asset_update
change record. -/
theorem C6_update_asset_whitelist (st : DB) (aid : String)
    (fields : List (String × String)) (now : String) :
    update_asset st aid fields now
        = update_asset st aid (filteredFields fields) now ∧
    (filteredFields fields = [] → update_asset st aid fields now = st) ∧
    (filteredFields fields ≠ [] →
      (update_asset st aid fields now).changes
          = st.changes ++
            [⟨"asset_update", aid, Payload.fields (filteredFields fields), now⟩] ∧
      (update_asset st aid fields now).assets
          = st.assets.map (updateRow aid (filteredFields fields) now) ∧
      (update_asset st aid fields now).versions = st.versions ∧
      (update_asset st aid fields now).files = st.files ∧
      (update_asset st aid fields now).comments = st.comments) ∧
    (∀ r : AssetRow,
      (updateRow aid (filteredFields fields) now r).id = r.id ∧
      (updateRow aid (filteredFields fields) now r).family = r.family ∧
      (updateRow aid (filteredFields fields) now r).created_at = r.created_at ∧
      (r.id = aid →
        (updateRow aid (filteredFields fields) now r).updated_at = now) ∧
      (r.id ≠ aid → updateRow aid (filteredFields fields) now r = r)) := by
  refine ⟨?_, ?_, ?_, fun r => updateRow_frame aid (filteredFields fields) now r⟩
  · simp only [update_asset, filteredFields_idem]
  · intro h
    simp [update_asset, h]
  · intro h
    refine ⟨?_, ?_, ?_, ?_, ?_⟩ <;> simp [update_asset, h]

/-- Field dictionary mixing a whitelisted and a foreign key. -/
def c6fields : List (String × String) := [("name", "N"), ("bogus", "x")]

theorem C6_witness :
    (filteredFields c6fields ≠ []) ∧
    (update_asset sampleDB "a1" c6fields "t2").changes
        = sampleDB.changes ++
          [⟨"asset_update", "a1", Payload.fields (filteredFields c6fields), "t2"⟩] :=
  ⟨by decide,
    ((C6_update_asset_whitelist sampleDB "a1" c6fields "t2").2.2.1 (by decide)).1⟩

theorem keyP_updVersion (a : String) (v : Int) (m t now : String)
    (r : VersionRow) :
    keyP a v (updVersion a v m t now r) = keyP a v r := by
  unfold updVersion
  split <;> rfl

theorem filter_map_updVersion (a : String) (v : Int) (m t now : String)
    (l : List VersionRow) :
    (l.map (updVersion a v m t now)).filter (keyP a v)
      = (l.filter (keyP a v)).map (updVersion a v m t now) := by
  induction l with
  | nil => rfl
  | cons r rest ih =>
      simp only [List.map_cons, List.filter_cons, keyP_updVersion]
      cases hk : keyP a v r <;> simp [hk, ih]

theorem eq_singleton_of_mem_of_len_le {α : Type} (l : List α) (x : α)
    (h1 : l.length ≤ 1) (h2 : x ∈ l) : l = [x] := by
  match l with
  | [] => cases h2
  | [a] =>
      rw [List.mem_singleton] at h2
      rw [h2]
  | a :: b :: rest => simp at h1

theorem versionsFor_length_le_one_cases (st : DB) (a : String) (v : Int)
    (h : (versionsFor st a v).length ≤ 1) :
    versionsFor st a v = [] ∨ ∃ r, versionsFor st a v = [r] := by
  match hv : versionsFor st a v with
  | [] => exact Or.inl rfl
  | [r] => exact Or.inr ⟨r, rfl⟩
  | a :: b :: rest => rw [hv] at h; simp at h

/-- One upsert_version call leaves exactly one row for the key, holding the
supplied metadata, thumbnail and timestamp. -/
theorem versionsFor_upsert (st : DB) (a : String) (v : Int) (m t now : String)
    (h : (versionsFor st a v).length ≤ 1) :
    ∃ arch cr,
      versionsFor (upsert_version st a v m t now) a v
        = [⟨a, v, m, t, arch, cr, now⟩] := by
  rcases versionsFor_length_le_one_cases st a v h with hnil | ⟨r0, hr0⟩
  · have hany : st.versions.any (keyP a v) = false := by
      rw [List.any_eq_false]
      intro x hx
      intro hpx
      have hxmem : x ∈ st.versions.filter (keyP a v) :=
        List.mem_filter.mpr ⟨hx, hpx⟩
      rw [show st.versions.filter (keyP a v) = versionsFor st a v from rfl,
        hnil] at hxmem
      cases hxmem
    refine ⟨false, now, ?_⟩
    show ((if st.versions.any (keyP a v) then st.versions
            else st.versions ++ [⟨a, v, m, t, false, now, now⟩]).map
          (updVersion a v m t now)).filter (keyP a v) = _
    rw [if_neg (by rw [hany]; exact Bool.false_ne_true)]
    rw [filter_map_updVersion]
    rw [List.filter_append]
    rw [show st.versions.filter (keyP a v) = versionsFor st a v from rfl, hnil]
    have hknew : keyP a v (⟨a, v, m, t, false, now, now⟩ : VersionRow) = true := by
      unfold keyP; exact decide_eq_true ⟨rfl, rfl⟩
    rw [List.filter_cons, if_pos hknew]
    simp only [List.filter_nil, List.nil_append, List.map_cons, List.map_nil]
    unfold updVersion
    rw [if_pos ⟨rfl, rfl⟩]
  · have hr0p : keyP a v r0 = true := by
      have : r0 ∈ st.versions.filter (keyP a v) := by
        rw [show st.versions.filter (keyP a v) = versionsFor st a v from rfl,
          hr0]
        exact List.mem_singleton.mpr rfl
      exact (List.mem_filter.mp this).2
    obtain ⟨ha0, hv0⟩ := of_decide_eq_true hr0p
    have hany : st.versions.any (keyP a v) = true := by
      rw [List.any_eq_true]
      have : r0 ∈ st.versions.filter (keyP a v) := by
        rw [show st.versions.filter (keyP a v) = versionsFor st a v from rfl,
          hr0]
        exact List.mem_singleton.mpr rfl
      exact ⟨r0, (List.mem_filter.mp this).1, (List.mem_filter.mp this).2⟩
    refine ⟨r0.archived, r0.created_at, ?_⟩
    show ((if st.versions.any (keyP a v) then st.versions
            else st.versions ++ [⟨a, v, m, t, false, now, now⟩]).map
          (updVersion a v m t now)).filter (keyP a v) = _
    rw [if_pos (by rw [hany])]
    rw [filter_map_updVersion]
    rw [show st.versions.filter (keyP a v) = versionsFor st a v from rfl, hr0]
    simp only [List.map_cons, List.map_nil]
    unfold updVersion
    rw [if_pos ⟨ha0, hv0⟩]
    have hrw : ({ r0 with metadata_json := m, thumbnail_path := t, updated_at := now } : VersionRow) = ⟨r0.asset_id, r0.version, m, t, r0.archived, r0.created_at, now⟩ := rfl
    rw [hrw, ha0, hv0]

/-- C3: two upsert_version calls for the same (asset_id, version) key leave
exactly one versions row for that key, carrying the metadata and thumbnail
of the second call, provided the state (as the UNIQUE constraint ensures)
held at most one row for the key. -/
theorem C3_upsert_version_idempotent (st : DB) (a : String) (v : Int)
    (m1 t1 n1 m2 t2 n2 : String)
    (h : (versionsFor st a v).length ≤ 1) :
    (versionsFor (upsert_version (upsert_version st a v m1 t1 n1) a v m2 t2 n2)
        a v).length = 1 ∧
    ∀ r ∈ versionsFor (upsert_version (upsert_version st a v m1 t1 n1)
        a v m2 t2 n2) a v,
      r.asset_id = a ∧ r.version = v ∧ r.metadata_json = m2 ∧
      r.thumbnail_path = t2 ∧ r.updated_at = n2 := by
  obtain ⟨arch1, cr1, h1⟩ := versionsFor_upsert st a v m1 t1 n1 h
  have hlen1 : (versionsFor (upsert_version st a v m1 t1 n1) a v).length ≤ 1 := by
    rw [h1]; exact le_refl 1
  obtain ⟨arch2, cr2, h2⟩ :=
    versionsFor_upsert (upsert_version st a v m1 t1 n1) a v m2 t2 n2 hlen1
  rw [h2]
  refine ⟨rfl, ?_⟩
  intro r hr
  rw [List.mem_singleton] at hr
  rw [hr]
  exact ⟨rfl, rfl, rfl, rfl, rfl⟩

theorem C3_witness :
    ((versionsFor emptyDB "a1" 1).length ≤ 1) ∧
    (versionsFor (upsert_version (upsert_version emptyDB "a1" 1 "m1" "th1" "s1")
        "a1" 1 "m2" "th2" "s2") "a1" 1).length = 1 :=
  ⟨by decide,
    (C3_upsert_version_idempotent emptyDB "a1" 1 "m1" "th1" "s1" "m2" "th2" "s2"
      (by decide)).1⟩

theorem minRoleRank_le_three (m : String) : minRoleRank m ≤ 3 := by
  unfold minRoleRank
  repeat' split
  all_goals omega

/-- C5: for every endpoint minimum role, an unknown key gives the 401
decision, a key resolving to a role ranked below the minimum gives the 403
decision, a key resolving to a role ranked at or above it passes, and an
admin key passes every gate. -/
theorem C5_require_role (m : String) (keys : List (String × String))
    (key role : String) :
    (keys.lookup key = none → require_role m keys key = .unauthorized) ∧
    (keys.lookup key = some role → role ∈ ["viewer", "editor", "admin"] →
      (roleRank role < minRoleRank m → require_role m keys key = .forbidden) ∧
      (minRoleRank m ≤ roleRank role →
        require_role m keys key = .allowed role)) ∧
    (keys.lookup key = some "admin" → require_role m keys key = .allowed "admin") ∧
    authStatus AuthDecision.unauthorized = some 401 ∧
    authStatus AuthDecision.forbidden = some 403 := by
  refine ⟨?_, ?_, ?_, rfl, rfl⟩
  · intro h
    simp [require_role, h]
  · intro h hrole
    have hne : role ≠ "" := by
      have h3 : role = "viewer" ∨ role = "editor" ∨ role = "admin" := by
        simpa using hrole
      rcases h3 with h1 | h1 | h1 <;> rw [h1] <;> decide
    constructor
    · intro hlt
      simp [require_role, h, hne, hlt]
    · intro hge
      simp [require_role, h, hne, not_lt.mpr hge]
  · intro h
    have hle : minRoleRank m ≤ roleRank "admin" := by
      rw [show roleRank "admin" = 3 from rfl]
      exact minRoleRank_le_three m
    simp [require_role, h, not_lt.mpr hle]

/-- The default demo key table of auth.py. -/
def demoKeys : List (String × String) :=
  [("demo-view", "viewer"), ("demo-edit", "editor"), ("demo-admin", "admin")]

theorem C5_witness :
    require_role "editor" demoKeys "" = AuthDecision.unauthorized ∧
    require_role "editor" demoKeys "demo-view" = AuthDecision.forbidden ∧
    require_role "editor" demoKeys "demo-edit" = AuthDecision.allowed "editor" ∧
    require_role "viewer" demoKeys "demo-admin" = AuthDecision.allowed "admin" ∧
    require_role "editor" demoKeys "demo-admin" = AuthDecision.allowed "admin" ∧
    require_role "admin" demoKeys "demo-admin" = AuthDecision.allowed "admin" := by
  refine ⟨(C5_require_role "editor" demoKeys "" "viewer").1 (by decide),
    ((C5_require_role "editor" demoKeys "demo-view" "viewer").2.1 (by decide)
      (by decide)).1 (by decide),
    ((C5_require_role "editor" demoKeys "demo-edit" "editor").2.1 (by decide)
      (by decide)).2 (by decide),
    (C5_require_role "viewer" demoKeys "demo-admin" "admin").2.2.1 (by decide),
    (C5_require_role "editor" demoKeys "demo-admin" "admin").2.2.1 (by decide),
    (C5_require_role "admin" demoKeys "demo-admin" "admin").2.2.1 (by decide)⟩

theorem changes_applyOp (st : DB) (op : Op) (now : String) :
    (applyOp st op now).changes = st.changes ++ emitted op now := by
  cases op with
  | update_asset a fs =>
      by_cases h : filteredFields fs = [] <;>
        simp [applyOp, update_asset, emitted, h]
  | ensure_asset a n f d t => rfl
  | upsert_version a v m th => rfl
  | add_file a v fn rp fmt sz => rfl
  | archive_version a v => rfl
  | delete_version a v => rfl
  | delete_asset a => rfl
  | add_comment a au b => rfl

theorem countP_emitted (op : Op) (now : String) (T : String) :
    (emitted op now).countP (fun c => decide (c.change_type = T))
      = if loggedType op = some T then 1 else 0 := by
  cases op with
  | update_asset a fs =>
      by_cases h : filteredFields fs = [] <;>
        simp [emitted, loggedType, h, List.countP_cons]
  | ensure_asset a n f d t => simp [emitted, loggedType, List.countP_cons]
  | upsert_version a v m th => simp [emitted, loggedType, List.countP_cons]
  | add_file a v fn rp fmt sz => simp [emitted, loggedType, List.countP_cons]
  | archive_version a v => simp [emitted, loggedType, List.countP_cons]
  | delete_version a v => simp [emitted, loggedType, List.countP_cons]
  | delete_asset a => simp [emitted, loggedType, List.countP_cons]
  | add_comment a au b => simp [emitted, loggedType, List.countP_cons]

/-- C2 (amended): along any call sequence the change rows of each type
grow by exactly the number of logging invocations of the matching
operation, where every operation logs except an update_asset call whose
whole field dictionary is filtered away. -/
theorem C2_change_log_counts (st : DB) (ops : List (Op × String)) (T : String) :
    ((runOps st ops).changes.countP (fun c => decide (c.change_type = T)))
      = st.changes.countP (fun c => decide (c.change_type = T))
        + ops.countP (fun p => decide (loggedType p.1 = some T)) := by
  induction ops generalizing st with
  | nil => simp [runOps]
  | cons p rest ih =>
      have hstep : runOps st (p :: rest) = runOps (applyOp st p.1 p.2) rest := rfl
      rw [hstep, ih, changes_applyOp, List.countP_append, countP_emitted,
        List.countP_cons]
      by_cases h : loggedType p.1 = some T
      · simp [h]; omega
      · simp [h]

/-- A call whose field dictionary holds no whitelisted key. -/
def c2op : Op := Op.update_asset "a1" [("bogus", "x")]

/-- C2 counterexample: one update_asset invocation whose field dictionary
is fully filtered appends no asset_update change row, so the per-operation
counts of the claim disagree. -/
theorem C2_counterexample :
    ([((c2op : Op), "t0")].countP (fun p => isUpdateAsset p.1)) = 1 ∧
    ((runOps emptyDB [(c2op, "t0")]).changes.countP
        (fun c => decide (c.change_type = "asset_update"))) = 0 :=
  ⟨by decide, by decide⟩

/-- C7: delete_version drops every files row and versions row of the key,
and a later get_asset for that asset lists no version entry and no file
entry with that version number. -/
theorem C7_delete_version (st : DB) (a : String) (v : Int) (now : String) :
    (∀ f ∈ (delete_version st a v now).files,
      ¬(f.asset_id = a ∧ f.version = v)) ∧
    (∀ r ∈ (delete_version st a v now).versions,
      ¬(r.asset_id = a ∧ r.version = v)) ∧
    (∀ rec_, get_asset (delete_version st a v now) a = some rec_ →
      (∀ ve ∈ rec_.2.1, ve.version ≠ v) ∧ (∀ fe ∈ rec_.2.2, fe.version ≠ v)) := by
  have hF : (delete_version st a v now).files
      = st.files.filter (fun f =>
          !(decide (f.asset_id = a ∧ f.version = v))) := rfl
  have hV : (delete_version st a v now).versions
      = st.versions.filter (fun r =>
          !(decide (r.asset_id = a ∧ r.version = v))) := rfl
  refine ⟨?_, ?_, ?_⟩
  · intro f hf
    rw [hF] at hf
    have hnot := (List.mem_filter.mp hf).2
    rw [Bool.not_eq_true', decide_eq_false_iff_not] at hnot
    exact hnot
  · intro r hr
    rw [hV] at hr
    have hnot := (List.mem_filter.mp hr).2
    rw [Bool.not_eq_true', decide_eq_false_iff_not] at hnot
    exact hnot
  · intro rec_ hrec
    unfold get_asset at hrec
    cases hfind : (delete_version st a v now).assets.find?
        (fun r => decide (r.id = a)) with
    | none => rw [hfind] at hrec; cases hrec
    | some a0 =>
        rw [hfind] at hrec
        have hrec2 := Option.some.inj hrec
        rw [← hrec2]
        constructor
        · intro ve hve
          have hve2 : ve ∈ (delete_version st a v now).versions.filter
              (fun r => decide (r.asset_id = a)) :=
            (List.perm_insertionSort versionGe _).mem_iff.mp hve
          obtain ⟨hmem, hdec⟩ := List.mem_filter.mp hve2
          rw [hV] at hmem
          have hnot := (List.mem_filter.mp hmem).2
          rw [Bool.not_eq_true', decide_eq_false_iff_not] at hnot
          intro hveq
          exact hnot ⟨of_decide_eq_true hdec, hveq⟩
        · intro fe hfe
          obtain ⟨hmem, hdec⟩ := List.mem_filter.mp hfe
          rw [hF] at hmem
          have hnot := (List.mem_filter.mp hmem).2
          rw [Bool.not_eq_true', decide_eq_false_iff_not] at hnot
          intro hfeq
          exact hnot ⟨of_decide_eq_true hdec, hfeq⟩

/-- A small populated state: one asset, one version, one file. -/
def c7pre : DB :=
  add_file (upsert_version (ensure_asset emptyDB "a1" "n" "model" "" "" "t1")
    "a1" 1 "m" "" "t1") "a1" 1 "f.obj" "assets/a1/v1/f.obj" "obj" 10 "t2"

/-- The record get_asset returns for a1 after the version is deleted. -/
def c7rec : AssetRow × List VersionRow × List FileRow :=
  (⟨"a1", "n", "model", "", "", "published", "t1", "t1"⟩, [], [])

theorem C7_witness :
    get_asset (delete_version c7pre "a1" 1 "t3") "a1" = some c7rec ∧
    (∀ ve ∈ c7rec.2.1, ve.version ≠ (1 : Int)) ∧
    (∀ fe ∈ c7rec.2.2, fe.version ≠ (1 : Int)) :=
  ⟨by decide, (C7_delete_version c7pre "a1" 1 "t3").2.2 c7rec (by decide)⟩

theorem lt_of_ne_empty (s : String) (h : s ≠ "") : "" < s := by
  rw [String.lt_iff_toList_lt]
  cases hl : s.toList with
  | nil =>
      exfalso
      apply h
      have hd : s.data = [] := hl
      cases s
      simp_all
  | cons c cs =>
      show "".toList < c :: cs
      exact List.nil_lt_cons c cs

theorem sorted_sortChanges (l : List Change) :
    List.Sorted changeLe (sortChanges l) :=
  List.sorted_insertionSort changeLe l

theorem perm_sortChanges (l : List Change) : (sortChanges l).Perm l :=
  List.perm_insertionSort changeLe l

/-- C1: every row list_changes returns for a given since value has a
strictly larger created_at (for the empty since string this relies on the
stored timestamps being nonempty, which utcnow output always is), the rows
come in ascending created_at order, at most limit of them; with since
omitted the call returns the limit oldest records: the result is sorted,
capped, and together with the dropped tail is a permutation of the change
table, every returned row preceding every dropped one. -/
theorem C1_list_changes (st : DB) (X : String) (L : Nat)
    (hne : ∀ c ∈ st.changes, c.created_at ≠ "") :
    (∀ c ∈ list_changes st (some X) L, X < c.created_at) ∧
    List.Sorted changeLe (list_changes st (some X) L) ∧
    (list_changes st (some X) L).length ≤ L ∧
    List.Sorted changeLe (list_changes st none L) ∧
    (list_changes st none L).length ≤ L ∧
    (list_changes st none L ++ (sortChanges st.changes).drop L).Perm st.changes ∧
    (∀ p ∈ list_changes st none L, ∀ q ∈ (sortChanges st.changes).drop L,
      p.created_at ≤ q.created_at) := by
  have hnone : list_changes st none L = (sortChanges st.changes).take L := rfl
  have hsome : list_changes st (some X) L
      = if X = "" then (sortChanges st.changes).take L
        else (sortChanges (st.changes.filter
          (fun c => decide (X < c.created_at)))).take L := rfl
  refine ⟨?_, ?_, ?_, ?_, ?_, ?_, ?_⟩
  · intro c hc
    rw [hsome] at hc
    by_cases hX : X = ""
    · rw [if_pos hX] at hc
      have hc2 : c ∈ sortChanges st.changes := (List.take_sublist L _).subset hc
      have hc3 : c ∈ st.changes := (perm_sortChanges st.changes).subset hc2
      rw [hX]
      exact lt_of_ne_empty c.created_at (hne c hc3)
    · rw [if_neg hX] at hc
      have hc2 : c ∈ st.changes.filter (fun c => decide (X < c.created_at)) :=
        (perm_sortChanges _).subset ((List.take_sublist L _).subset hc)
      exact of_decide_eq_true (List.mem_filter.mp hc2).2
  · rw [hsome]
    by_cases hX : X = ""
    · rw [if_pos hX]
      exact (sorted_sortChanges st.changes).sublist (List.take_sublist L _)
    · rw [if_neg hX]
      exact (sorted_sortChanges _).sublist (List.take_sublist L _)
  · rw [hsome]
    by_cases hX : X = ""
    · rw [if_pos hX]; exact List.length_take_le L _
    · rw [if_neg hX]; exact List.length_take_le L _
  · rw [hnone]
    exact (sorted_sortChanges st.changes).sublist (List.take_sublist L _)
  · rw [hnone]
    exact List.length_take_le L _
  · rw [hnone, List.take_append_drop]
    exact perm_sortChanges st.changes
  · rw [hnone]
    have hs := sorted_sortChanges st.changes
    rw [← List.take_append_drop L (sortChanges st.changes)] at hs
    have hsplit := (List.pairwise_append.mp hs).2.2
    intro p hp q hq
    exact hsplit p hp q hq

/-- A two-row change log with distinct nonempty timestamps, table order not
equal to timestamp order. -/
def c1db : DB :=
  { emptyDB with
    changes := [⟨"comment", "a1", Payload.author "u", "t2"⟩,
      ⟨"asset_upsert", "a1", Payload.nameFamily "n" "f", "t1"⟩] }

theorem C1_witness :
    (∀ c ∈ c1db.changes, c.created_at ≠ "") ∧
    (∀ c ∈ list_changes c1db (some "t1") 100, "t1" < c.created_at) :=
  ⟨by decide, (C1_list_changes c1db "t1" 100 (by decide)).1⟩

/-- Component list of the absolute storage root used for concrete path
checks. -/
def storageRoot : List String := ["app", "web_server", "storage_root"]

/-- State holding one asset whose single file row stores a traversing
relative path. -/
def c4db : DB :=
  add_file (ensure_asset emptyDB "a1" "n" "model" "" "" "t1")
    "a1" 1 "secret" "../../secret" "obj" 10 "t1"

/-- C4 fails on the code: absolute_from_rel merely normalizes the joined
path, so a stored relative path with dotdot components resolves outside
the storage root, and the download route serves that escaped path instead
of rejecting the request with a 400. -/
theorem C4_traversal_escapes_root :
    absolute_from_rel storageRoot "../../secret" = ["app", "secret"] ∧
    storageRoot.isPrefixOf (absolute_from_rel storageRoot "../../secret")
      = false ∧
    download_file_route c4db storageRoot "a1" 1 ""
      = DownloadResult.serve ["app", "secret"] "secret" :=
  ⟨by decide, by decide, by decide⟩



